import Mathlib

/-!
Verification of the bulk image-compression-and-sync workflow of the
Shopify admin app (route `app/routes/app._index.jsx`, plus the earlier
revision of the same route kept as `src/unnamed/part_001`).

The embedding is a shallow one: every network call, codec invocation and
cancellation-flag read is resolved through an explicit environment record,
so the client job `compressAndUpdateImage`, the bulk coordinator
`compressAllImages` and the Remix `action` become pure Lean functions over
those environments.  Machine arithmetic does not occur (all sizes are byte
counts handled as `Nat` in JS safe-integer range); the one floating-point
spot, `toFixed(1)`, is modelled over `ℚ` with round-half-up, which agrees
with JS on the values the claims mention.
-/

namespace ImgApp

/-- Image node as returned by the products query: `{ id, url }`. -/
structure Image where
  id : String
  url : String
deriving DecidableEq

/-- Product node: `{ id, title, images (first 1) }`.  The `images` field is
the list of image nodes of `images.edges` (at most one is ever fetched). -/
structure Product where
  id : String
  title : String
  images : List Image
deriving DecidableEq

/-- Truthiness of a JS string-or-missing value: `null`, `undefined` and the
empty string are falsy, every other string is truthy. -/
def truthy : Option String → Bool
  | none => false
  | some s => !(s == "")

/-- JS `a || b` for an optional string `a` and default `b` (the empty
string counts as falsy, as in `responseData.error || fallback`). -/
def jsOr (o : Option String) (d : String) : String :=
  match o with
  | some s => if s == "" then d else s
  | none => d

/-! ## The Remix `action` (upload endpoint) of `app._index.jsx` -/

/-- Request body of the upload action after parsing: the three fields the
client sends (`productId`, `imageId`, `compressedImage`). -/
structure ActionReq where
  productId : Option String
  imageId : Option String
  compressedImage : Option String
deriving DecidableEq

/-- Environment of one action invocation: what the remote GraphQL service
answers.  `deleteUserErrors` and `createUserErrors` are the `userErrors`
arrays of the two mutations (only the first message is ever read);
`createdImage` is `productCreateMedia.media[0].image`. -/
structure ActionEnv where
  deleteUserErrors : List String
  createUserErrors : List String
  createdImage : Option Image
deriving DecidableEq

/-- Observable response of the action: the JSON body fields the client
reads (`success`, `error`, `image`) plus the HTTP status. -/
structure ActionRes where
  success : Bool
  status : Nat
  error : Option String
  image : Option Image
deriving DecidableEq

/-- Catalog mutations the action can issue. -/
inductive GwCall where
  | deleteImage (productId imageId : String)
  | createImage (productId : String)
deriving DecidableEq

/-- JS `String.prototype.split` on a fixed nonempty separator, over
character lists, scanning left to right (fuelled by the input length so
the recursion is structural). -/
def splitOnL (sep : List Char) : Nat → List Char → List (List Char)
  | _, [] => [[]]
  | 0, l => [l]
  | fuel + 1, c :: rest =>
    if (c :: rest).take sep.length = sep then
      [] :: splitOnL sep fuel ((c :: rest).drop sep.length)
    else
      match splitOnL sep fuel rest with
      | [] => [[c]]
      | h :: t => (c :: h) :: t

/-- JS conditional taking, when `compressedImage` contains the marker
`base64,`, the second piece of splitting on it, and otherwise the whole
string (the string contains the marker exactly when the split has a
second piece). -/
def extractBase64 (s : String) : String :=
  match splitOnL "base64,".data s.data.length s.data with
  | _ :: second :: _ => ⟨second⟩
  | _ => s

/-- Character class of the validation regex `[A-Za-z0-9+/=]`. -/
def isBase64Char (c : Char) : Bool :=
  c.isAlpha || c.isDigit || c == '+' || c == '/' || c == '='

/-- The validation regex `^[A-Za-z0-9+/=]+$` (nonempty, all characters in
the class). -/
def isValidBase64 (s : String) : Bool :=
  !s.data.isEmpty && s.data.all isBase64Char

/-- Error response of the action: every thrown error is caught and turned
into `json({ success: false, error: message }, { status: 400 })`. -/
def errRes (msg : String) : ActionRes :=
  ⟨false, 400, some msg, none⟩

/-- The upload `action` of `app._index.jsx`, returning its response
together with the list of catalog mutations it issued, in order. -/
def action (req : ActionReq) (env : ActionEnv) : ActionRes × List GwCall :=
  if !truthy req.productId || !truthy req.compressedImage then
    (errRes "Missing required fields: productId or compressedImage", [])
  else
    let pid := req.productId.getD ""
    let b64 := extractBase64 (req.compressedImage.getD "")
    if !isValidBase64 b64 then
      (errRes "Invalid image data format", [])
    else
      let deleteCalls :=
        if truthy req.imageId then [GwCall.deleteImage pid (req.imageId.getD "")] else []
      let deleteErr :=
        if truthy req.imageId then env.deleteUserErrors.head? else none
      match deleteErr with
      | some m => (errRes ("Failed to delete image: " ++ m), deleteCalls)
      | none =>
        let calls := deleteCalls ++ [GwCall.createImage pid]
        match env.createUserErrors.head? with
        | some m => (errRes ("Failed to create image: " ++ m), calls)
        | none =>
          match env.createdImage with
          | none => (errRes "No image data in response", calls)
          | some img => (⟨true, 200, none, some img⟩, calls)

/-! ## Client-side bulk pipeline of `compressAllImages` -/

/-- Status values that the bulk loop ever appends to
`bulkCompressionProgress.results`: the three call sites use exactly
`skipped`, `success` and `failed`.  A `cancelled` status never reaches the
results list (the cancelled paths return a marker object instead). -/
inductive Status where
  | success
  | failed
  | skipped
deriving DecidableEq, BEq

/-- One element of `bulkCompressionProgress.results`.  The byte sizes are
kept as raw counts (the JSX formats them with `formatFileSize` only for
display); `savedPercentage` models the JS string `toFixed(1)` value as an
exact rational with one decimal. -/
structure ResultEntry where
  productId : String
  status : Status
  message : Option String := none
  error : Option String := none
  originalSizeB : Option Nat := none
  compressedSizeB : Option Nat := none
  savedPercentage : Option ℚ := none
deriving DecidableEq

/-- JS `x.toFixed(1)` on a nonnegative number: round to the nearest tenth
(half away from zero, which for nonnegative values is round-half-up). -/
def toFixed1 (q : ℚ) : ℚ :=
  ((round (q * 10) : ℤ) : ℚ) / 10

/-- The percentage expression
`((originalSize - compressedSize) / originalSize) * 100`. -/
def savedPct (osize csize : Nat) : ℚ :=
  (((osize : ℚ) - (csize : ℚ)) / (osize : ℚ)) * 100

/-- Result entry of the two skipped call sites. -/
def skippedEntry (pid msg : String) : ResultEntry :=
  { productId := pid, status := .skipped, message := some msg }

/-- Result entry of the failed call site. -/
def failedEntry (pid msg : String) : ResultEntry :=
  { productId := pid, status := .failed, error := some msg }

/-- Result entry of the success call site. -/
def successEntry (pid : String) (osize csize : Nat) : ResultEntry :=
  { productId := pid, status := .success, originalSizeB := some osize,
    compressedSizeB := some csize,
    savedPercentage := some (toFixed1 (savedPct osize csize)) }

/-- Network calls a job can issue: image downloads, the POST to the upload
action, and the catalog mutations the action performs server-side. -/
inductive Call where
  | fetchImage (url : String)
  | uploadPost (productId : String)
  | gw (c : GwCall)
deriving DecidableEq

/-- Outcome of one external call that can either produce a byte size or
reject with an error message. -/
inductive FetchRes where
  | ok (size : Nat)
  | fail (msg : String)
deriving DecidableEq

/-- Failure modes of the nested `compressAndUpdateImage` call: an
`AbortError` from the shared abort signal, or an ordinary thrown error
with its message. -/
inductive CUErr where
  | abort
  | err (msg : String)
deriving DecidableEq

/-- Environment of one `compressAndUpdateImage` invocation (the current
revision in `app._index.jsx`): its own image fetch, its own codec run
(options maxSizeMB 0.5 / maxWidthOrHeight 1024), the base64 payload the
FileReader produces, whether the upload fetch is aborted by the signal,
and the server-side environment of the action handling the POST. -/
structure CUEnv where
  fetch : FetchRes
  codec : FetchRes
  base64Content : String
  uploadAborted : Bool
  server : ActionEnv
deriving DecidableEq

/-- The `compressAndUpdateImage` function of `app._index.jsx` as used by
the bulk path, composed with the server `action` that handles its POST.
Returns the result the caller observes plus all network calls made.  The
JSON-parse-failure branch of the client is unreachable here because the
composed action always answers with a JSON body. -/
def cuRun (pr : Product) (env : CUEnv) : Except CUErr ActionRes × List Call :=
  match pr.images.head? with
  | none => (.error (.err "No image found"), [])
  | some img =>
    match env.fetch with
    | .fail m => (.error (.err m), [.fetchImage img.url])
    | .ok osize =>
      match env.codec with
      | .fail m => (.error (.err m), [.fetchImage img.url])
      | .ok csize =>
        if csize ≥ osize then
          (.error (.err "Compressed size is not smaller than original"), [.fetchImage img.url])
        else if env.uploadAborted then
          (.error .abort, [.fetchImage img.url, .uploadPost pr.id])
        else
          let res := action ⟨some pr.id, some img.id, some env.base64Content⟩ env.server
          let calls := [Call.fetchImage img.url, Call.uploadPost pr.id] ++ res.2.map Call.gw
          if !(res.1.status == 200) || !res.1.success then
            (.error (.err (jsOr res.1.error ("Upload failed: " ++ toString res.1.status))), calls)
          else
            (.ok res.1, calls)

/-- Outcome of the bulk image fetch `fetch(imageNode.url, { signal })`:
success with a blob size, an HTTP error (checked via `response.ok`), a
network-level rejection, or an `AbortError` from the signal. -/
inductive FetchOutcome where
  | ok (size : Nat)
  | httpErr (statusText : String)
  | netErr (msg : String)
  | abort
deriving DecidableEq

/-- Return value of one job promise inside the batch: the
`{ cancelled: true }` marker, `null` (the skipped paths), the success
object, or the failure object. -/
inductive JobRet where
  | cancelledMark
  | nullRet
  | successRet (productId : String)
  | failureRet (productId : String) (error : String)
deriving DecidableEq, BEq

/-- Environment of one bulk job: the three reads of the `isCancelled`
flag, the image fetch, the codec run (options maxSizeMB 1 /
maxWidthOrHeight 2048), and the environment of the nested
`compressAndUpdateImage` call. -/
structure JobEnv where
  cancelAtStart : Bool
  fetch : FetchOutcome
  cancelAfterFetch : Bool
  codec : FetchRes
  cancelAfterBase64 : Bool
  cu : CUEnv
deriving DecidableEq

/-- What one job produces: the entry it appends to the progress results
(if any), its promise return value, and its network calls. -/
structure JobOut where
  entry : Option ResultEntry
  ret : JobRet
  calls : List Call
deriving DecidableEq

/-- One job of the bulk loop (the async lambda of `batch.map` in
`compressAllImages`), lines 459-590 of `app._index.jsx`. -/
def runJob (pr : Product) (env : JobEnv) : JobOut :=
  if env.cancelAtStart then ⟨none, .cancelledMark, []⟩
  else
    match pr.images.head? with
    | none => ⟨some (skippedEntry pr.id "No image found"), .nullRet, []⟩
    | some img =>
      match env.fetch with
      | .abort => ⟨none, .cancelledMark, [.fetchImage img.url]⟩
      | .netErr m => ⟨some (failedEntry pr.id m), .failureRet pr.id m, [.fetchImage img.url]⟩
      | .httpErr st =>
        ⟨some (failedEntry pr.id ("Failed to fetch image: " ++ st)),
          .failureRet pr.id ("Failed to fetch image: " ++ st), [.fetchImage img.url]⟩
      | .ok osize =>
        if env.cancelAfterFetch then ⟨none, .cancelledMark, [.fetchImage img.url]⟩
        else
          match env.codec with
          | .fail m => ⟨some (failedEntry pr.id m), .failureRet pr.id m, [.fetchImage img.url]⟩
          | .ok csize =>
            if csize ≥ osize then
              ⟨some (skippedEntry pr.id "No size reduction achieved"), .nullRet,
                [.fetchImage img.url]⟩
            else if env.cancelAfterBase64 then ⟨none, .cancelledMark, [.fetchImage img.url]⟩
            else
              match cuRun pr env.cu with
              | (.error .abort, cucalls) =>
                ⟨none, .cancelledMark, Call.fetchImage img.url :: cucalls⟩
              | (.error (.err m), cucalls) =>
                ⟨some (failedEntry pr.id m), .failureRet pr.id m,
                  Call.fetchImage img.url :: cucalls⟩
              | (.ok _, cucalls) =>
                ⟨some (successEntry pr.id osize csize), .successRet pr.id,
                  Call.fetchImage img.url :: cucalls⟩

/-- The `bulkCompressionProgress` aggregate. -/
structure Progress where
  total : Nat
  completed : Nat
  successful : Nat
  failed : Nat
  results : List ResultEntry
deriving DecidableEq

/-- One `setBulkCompressionProgress(prev => ...)` update: each of the
three call sites increments `completed`, increments `successful` or
`failed` exactly when the appended entry has that status, and appends the
entry to `results`. -/
def applyEntry (p : Progress) (e : ResultEntry) : Progress :=
  { p with
    completed := p.completed + 1
    successful := p.successful + (if e.status = .success then 1 else 0)
    failed := p.failed + (if e.status = .failed then 1 else 0)
    results := p.results ++ [e] }

/-- The slicing `productsWithImages.slice(i, i + batchSize)` of the bulk
loop with its hardcoded `batchSize = 3`. -/
def chunksOf3 : List α → List (List α)
  | [] => []
  | [a] => [[a]]
  | [a, b] => [[a, b]]
  | a :: b :: c :: rest => [a, b, c] :: chunksOf3 rest

/-- The pre-filter
`products.filter(product => product.node.images?.edges.length > 0)`. -/
def hasImg (pr : Product) : Bool :=
  !pr.images.isEmpty

/-- Coordinator-level events of a run, for ordering claims. -/
inductive TraceEv where
  | sliceStart (k : Nat) (size : Nat)
  | settled (k : Nat)
  | cooldown (k : Nat)
deriving DecidableEq

/-- Environment of the coordinator: per-product job environments, the
completion order of each slice (jobs in a slice settle in scheduler
order, modelled as a permutation of dispatch order), and the values the
three coordinator-level reads of `isCancelled` observe for each slice
index. -/
structure CoordEnv where
  jobEnv : Product → JobEnv
  reorder : Nat → List ResultEntry → List ResultEntry
  loopCancelled : Nat → Bool
  preAwaitCancelled : Nat → Bool
  postCancelled : Nat → Bool

/-- Entries one slice appends to the results, in completion order. -/
def sliceEntries (cenv : CoordEnv) (k : Nat) (c : List Product) : List ResultEntry :=
  cenv.reorder k (c.filterMap fun pr => (runJob pr (cenv.jobEnv pr)).entry)

/-- Promise return values of one slice (what `Promise.all` resolves to,
up to order, used for the `batchResults.some(r => r && r.cancelled)`
check). -/
def sliceRets (cenv : CoordEnv) (c : List Product) : List JobRet :=
  c.map fun pr => (runJob pr (cenv.jobEnv pr)).ret

/-- Network calls of one slice. -/
def sliceCalls (cenv : CoordEnv) (c : List Product) : List Call :=
  (c.map fun pr => (runJob pr (cenv.jobEnv pr)).calls).flatten

/-- What remains of the coordinator. -/
structure SliceOut where
  progress : Progress
  snapshots : List Progress
  trace : List TraceEv
  calls : List Call

/-- The slice loop of `compressAllImages`: for each slice, check the
cancellation flag in the loop condition, dispatch the jobs of the slice,
check the flag again before awaiting (on cancellation the loop breaks,
but the jobs already dispatched still run and their recorded entries
still land), break when some settled job returned the cancelled marker,
otherwise apply the cooldown (skipped when the flag is set) and continue
with the next slice. -/
def runSlices (cenv : CoordEnv) : List (List Product) → Nat → Progress → SliceOut
  | [], _, p => ⟨p, [], [], []⟩
  | c :: rest, k, p =>
    if cenv.loopCancelled k then ⟨p, [], [], []⟩
    else
      let entries := sliceEntries cenv k c
      let p2 := entries.foldl applyEntry p
      let snaps := (entries.scanl applyEntry p).drop 1
      if cenv.preAwaitCancelled k then
        ⟨p2, snaps, [.sliceStart k c.length], sliceCalls cenv c⟩
      else if (sliceRets cenv c).any (fun r => decide (r = JobRet.cancelledMark)) then
        ⟨p2, snaps, [.sliceStart k c.length, .settled k], sliceCalls cenv c⟩
      else
        let cool : List TraceEv := if cenv.postCancelled k then [] else [.cooldown k]
        let restOut := runSlices cenv rest (k + 1) p2
        ⟨restOut.progress, snaps ++ restOut.snapshots,
          [TraceEv.sliceStart k c.length, TraceEv.settled k] ++ cool ++ restOut.trace,
          sliceCalls cenv c ++ restOut.calls⟩

/-- Observable artifacts of one whole run. -/
structure RunOut where
  final : Progress
  snapshots : List Progress
  trace : List TraceEv
  calls : List Call

/-- The initial `setBulkCompressionProgress({...})` state. -/
def initProgress (n : Nat) : Progress :=
  ⟨n, 0, 0, 0, []⟩

/-- The whole `compressAllImages` run: filter to products with images,
initialise the progress aggregate with their count, then run the slice
loop over chunks of three. -/
def runBulk (l : List Product) (cenv : CoordEnv) : RunOut :=
  let fil := l.filter hasImg
  let out := runSlices cenv (chunksOf3 fil) 0 (initProgress fil.length)
  ⟨out.progress, initProgress fil.length :: out.snapshots, out.trace, out.calls⟩

/-! ## Earlier revision of the route (`src/unnamed/part_001`) -/

/-- The `compressionStats` object of the earlier revision. -/
structure P1Stats where
  originalSize : Nat
  compressedSizeLocal : Nat
  finalSize : Nat
  savedPercentage : ℚ
deriving DecidableEq

/-- The `compressAndUpdateImage` function of `src/unnamed/part_001`, up
to the `compressionStats` it sets: with no size reduction it keeps the
original size as final size and reports `savedPercentage: 0`; otherwise
it reports the local compressed size and the rounded percentage. -/
def compressAndUpdateImageP1 (pr : Product) (fetch codec : FetchRes) :
    Except String P1Stats :=
  match pr.images.head? with
  | none => .error "No image found for this product"
  | some _ =>
    match fetch with
    | .fail m => .error m
    | .ok osize =>
      match codec with
      | .fail m => .error m
      | .ok csize =>
        if csize ≥ osize then .ok ⟨osize, csize, osize, 0⟩
        else .ok ⟨osize, csize, csize, toFixed1 (savedPct osize csize)⟩

/-! ## UI guard around the coordinator -/

/-- Component state relevant to starting a run. -/
structure UIState where
  isCompressing : Bool
  isCancelled : Bool
  errorMsg : String
  bulkProgress : Option Progress
deriving DecidableEq

/-- Clicking the Compress All Images button: the button carries
`disabled={isCompressing}`, so while the `isCompressing` flag is true
the click fires no handler and the state is untouched; otherwise
`compressAllImages` starts and resets the run state (fresh progress
aggregate, cleared cancellation flag and error).  Note the flag is not
an is-a-run-active indicator: several `setIsCompressing` sites write it,
and the `finally` of the nested `compressAndUpdateImage` clears it while
a bulk run is still in flight (see `compressAndUpdateImageFinally`). -/
def clickCompressAll (s : UIState) (total : Nat) : UIState :=
  if s.isCompressing then s
  else
    { s with isCompressing := true, isCancelled := false, errorMsg := "",
             bulkProgress := some (initProgress total) }

/-- The `finally` block of `compressAndUpdateImage` (lines 426-429 of
`app._index.jsx`): whenever the nested call settles — success, thrown
error or abort — it runs `setIsCompressing(false)`, also when it was
invoked from inside the bulk loop, where the run is still in flight
(the cooldown and any remaining slices come after). -/
def compressAndUpdateImageFinally (s : UIState) : UIState :=
  { s with isCompressing := false }

/-! ## Derived descriptions used by the theorems -/

/-- No coordinator-level cancellation read ever observes the flag. -/
def NoCancelEnv (cenv : CoordEnv) : Prop :=
  ∀ k, cenv.loopCancelled k = false ∧ cenv.preAwaitCancelled k = false ∧
    cenv.postCancelled k = false

/-- Entries of all slices from index `k` on, in recording order. -/
def allEntries (cenv : CoordEnv) : List (List Product) → Nat → List ResultEntry
  | [], _ => []
  | c :: rest, k => sliceEntries cenv k c ++ allEntries cenv rest (k + 1)

/-- Trace of an uncancelled run from slice `k` on. -/
def fullTrace : List (List Product) → Nat → List TraceEv
  | [], _ => []
  | c :: rest, k =>
    [TraceEv.sliceStart k c.length, TraceEv.settled k, TraceEv.cooldown k] ++
      fullTrace rest (k + 1)

/-- Counter coherence of a progress value: `completed` counts the
recorded entries and `successful` and `failed` count the entries with
that status. -/
def CntInv (p : Progress) : Prop :=
  p.completed = p.results.length ∧
  p.successful = p.results.countP (fun e => decide (e.status = Status.success)) ∧
  p.failed = p.results.countP (fun e => decide (e.status = Status.failed))

/-- Multiset of product ids of the recorded entries of a progress value. -/
def resIds (p : Progress) : Multiset String :=
  (p.results.map ResultEntry.productId : List String)

/-- Multiset of ids of a product list. -/
def prodIds (l : List Product) : Multiset String :=
  (l.map Product.id : List String)

end ImgApp

namespace ImgApp

/-- C10: a request to the upload action with `productId` or
`compressedImage` missing (or empty, which is falsy in JS), or with a
`compressedImage` payload that fails the base64 validation, yields
`success: false` with HTTP status 400 and issues no catalog mutation. -/
theorem action_rejects_invalid_input (req : ActionReq) (env : ActionEnv)
    (h : truthy req.productId = false ∨ truthy req.compressedImage = false ∨
      isValidBase64 (extractBase64 (req.compressedImage.getD "")) = false) :
    (action req env).1.success = false ∧ (action req env).1.status = 400 ∧
      (action req env).2 = [] := by
  unfold action
  rcases h with h | h | h
  · simp [h, errRes]
  · simp [h, errRes]
  · by_cases h1 : truthy req.productId
    · by_cases h2 : truthy req.compressedImage
      · simp [h1, h2, h, errRes]
      · simp [h2, errRes]
    · simp [h1, errRes]

/-- Witness for C10: the all-missing request is rejected with status 400
and no mutation. -/
theorem action_rejects_invalid_input_witness :
    (action ⟨none, none, none⟩ ⟨[], [], none⟩).1.success = false ∧
      (action ⟨none, none, none⟩ ⟨[], [], none⟩).1.status = 400 ∧
      (action ⟨none, none, none⟩ ⟨[], [], none⟩).2 = [] :=
  action_rejects_invalid_input ⟨none, none, none⟩ ⟨[], [], none⟩ (Or.inl rfl)

/-- C6: in the swap performed by the upload action, whenever the create
mutation is issued the delete of the old image precedes it (the call list
is exactly delete-then-create), and when the delete mutation reports a
service-level `userErrors` entry the action aborts with a failure and the
create mutation is never attempted. -/
theorem action_delete_before_create (req : ActionReq) (env : ActionEnv)
    (himg : truthy req.imageId = true) :
    (env.deleteUserErrors ≠ [] →
      (action req env).1.success = false ∧ (action req env).1.status = 400 ∧
        ∀ p, GwCall.createImage p ∉ (action req env).2) ∧
    (∀ p, GwCall.createImage p ∈ (action req env).2 →
      (action req env).2 =
        [GwCall.deleteImage (req.productId.getD "") (req.imageId.getD ""),
         GwCall.createImage (req.productId.getD "")]) := by
  unfold action
  by_cases h1 : truthy req.productId
  · by_cases h2 : truthy req.compressedImage
    · by_cases h3 : isValidBase64 (extractBase64 (req.compressedImage.getD ""))
      · simp only [h1, h2, h3, himg, Bool.not_true, Bool.false_or, if_false, if_true,
          Bool.or_self]
        cases hde : env.deleteUserErrors with
        | nil =>
          refine ⟨fun hne => absurd rfl hne, fun p hp => ?_⟩
          rcases hce : env.createUserErrors.head? with _ | m
          · rcases hci : env.createdImage with _ | img
            · simp [hde, hce, hci]
            · simp [hde, hce, hci]
          · simp [hde, hce]
        | cons m ms =>
          constructor
          · intro _
            simp [errRes]
          · intro p hp
            simp at hp
      · simp [h1, h2, h3, errRes]
    · simp [h2, errRes]
  · simp [h1, errRes]

/-- Witness for C6: with a delete `userErrors` entry present, the action
fails with 400 and the create mutation is absent from the call list. -/
theorem action_delete_before_create_witness :
    (action ⟨some "p", some "i", some "QUJD"⟩ ⟨["boom"], [], none⟩).1.success = false ∧
      (action ⟨some "p", some "i", some "QUJD"⟩ ⟨["boom"], [], none⟩).1.status = 400 ∧
      GwCall.createImage "p" ∉ (action ⟨some "p", some "i", some "QUJD"⟩ ⟨["boom"], [], none⟩).2 := by
  have h := action_delete_before_create ⟨some "p", some "i", some "QUJD"⟩
    ⟨["boom"], [], none⟩ (by decide)
  have h1 := h.1 (by decide)
  exact ⟨h1.1, h1.2.1, h1.2.2 "p"⟩

/-! ## Job-level lemmas -/

theorem runJob_entry_pid (pr : Product) (env : JobEnv) (e : ResultEntry)
    (h : (runJob pr env).entry = some e) : e.productId = pr.id := by
  unfold runJob at h
  repeat' split at h
  all_goals simp_all [skippedEntry, failedEntry, successEntry]
  all_goals rw [← h]

theorem runJob_entry_none_iff (pr : Product) (env : JobEnv) :
    (runJob pr env).entry = none ↔ (runJob pr env).ret = JobRet.cancelledMark := by
  unfold runJob
  repeat' split
  all_goals simp

/-- C1, corrected: the claim fails as stated.  In this one-product run the
upload-stage recompression inside `compressAndUpdateImage` produces 150
bytes from a 100-byte original (codec output at least the original size),
yet the recorded outcome is `failed` with the thrown message, not
`skipped` with "No size reduction achieved". -/
theorem size_gate_counterexample :
    (runJob ⟨"gid1", "T", [⟨"img1", "u1"⟩]⟩
        ⟨false, .ok 100, false, .ok 50, false,
          ⟨.ok 100, .ok 150, "QUJD", false, ⟨[], [], some ⟨"img2", "u2"⟩⟩⟩⟩).entry =
      some (failedEntry "gid1" "Compressed size is not smaller than original") ∧
    (failedEntry "gid1" "Compressed size is not smaller than original").status ≠
      Status.skipped := by
  constructor
  · decide
  · decide

/-- C1, amended: when the coordinator-stage codec output is at least the
original size, the job records `skipped` with "No size reduction
achieved" and issues no catalog mutation; when only the upload-stage
recompression inside `compressAndUpdateImage` fails to shrink the image,
the job instead records `failed` with "Compressed size is not smaller
than original" — and still issues no catalog mutation. -/
theorem size_gate_behaviour (pr : Product) (env : JobEnv)
    (himg : hasImg pr = true) (h1 : env.cancelAtStart = false)
    (h2 : env.cancelAfterFetch = false) :
    (∀ o c, env.fetch = .ok o → env.codec = .ok c → o ≤ c →
      (runJob pr env).entry = some (skippedEntry pr.id "No size reduction achieved") ∧
        ∀ g, Call.gw g ∉ (runJob pr env).calls) ∧
    (∀ o c o2 c2, env.fetch = .ok o → env.codec = .ok c → c < o →
      env.cancelAfterBase64 = false → env.cu.fetch = .ok o2 → env.cu.codec = .ok c2 →
      o2 ≤ c2 →
      (runJob pr env).entry =
          some (failedEntry pr.id "Compressed size is not smaller than original") ∧
        ∀ g, Call.gw g ∉ (runJob pr env).calls) := by
  obtain ⟨img, imgs, himgs⟩ : ∃ img imgs, pr.images = img :: imgs := by
    cases h : pr.images with
    | nil => rw [hasImg, h] at himg; simp at himg
    | cons a l => exact ⟨a, l, rfl⟩
  constructor
  · intro o c hf hc hge
    unfold runJob
    simp [h1, himgs, hf, h2, hc, hge]
  · intro o c o2 c2 hf hc hlt hcb hcuf hcuc hge2
    unfold runJob cuRun
    simp [h1, himgs, hf, h2, hc, Nat.not_le.mpr hlt, hcb, hcuf, hcuc, hge2]

/-- Witness for the amended C1 at a concrete no-reduction input. -/
theorem size_gate_behaviour_witness :
    (runJob ⟨"g1", "t", [⟨"i1", "u1"⟩]⟩
        ⟨false, .ok 100, false, .ok 150, false,
          ⟨.ok 100, .ok 40, "QUJD", false, ⟨[], [], some ⟨"i2", "u2"⟩⟩⟩⟩).entry =
      some (skippedEntry "g1" "No size reduction achieved") ∧
    Call.gw (GwCall.createImage "g1") ∉
      (runJob ⟨"g1", "t", [⟨"i1", "u1"⟩]⟩
        ⟨false, .ok 100, false, .ok 150, false,
          ⟨.ok 100, .ok 40, "QUJD", false, ⟨[], [], some ⟨"i2", "u2"⟩⟩⟩⟩).calls := by
  have h := (size_gate_behaviour ⟨"g1", "t", [⟨"i1", "u1"⟩]⟩
    ⟨false, .ok 100, false, .ok 150, false,
      ⟨.ok 100, .ok 40, "QUJD", false, ⟨[], [], some ⟨"i2", "u2"⟩⟩⟩⟩
    (by decide) rfl rfl).1 100 150 rfl rfl (by norm_num)
  exact ⟨h.1, h.2 (GwCall.createImage "g1")⟩

/-- C7: every success entry reports
`savedPercentage = toFixed1(((original - compressed) / original) * 100)`;
at 2,000,000 original and 800,000 compressed bytes this value is 60.0;
and the no-size-reduction path of the single-image flow (the
`compressAndUpdateImage` of the earlier revision) reports
`savedPercentage` as 0. -/
theorem savedPercentage_spec :
    (∀ pr env e, (runJob pr env).entry = some e → e.status = Status.success →
      ∃ o c, e.originalSizeB = some o ∧ e.compressedSizeB = some c ∧
        e.savedPercentage = some (toFixed1 (savedPct o c))) ∧
    toFixed1 (savedPct 2000000 800000) = 60 ∧
    (∀ pr o c s, o ≤ c → compressAndUpdateImageP1 pr (.ok o) (.ok c) = .ok s →
      s.savedPercentage = 0) := by
  refine ⟨?_, ?_, ?_⟩
  · intro pr env e h hst
    unfold runJob at h
    repeat' split at h
    all_goals simp_all [skippedEntry, failedEntry, successEntry]
    all_goals subst h
    all_goals simp_all [skippedEntry, failedEntry, successEntry]
  · norm_num [toFixed1, savedPct]
  · intro pr o c s hge h
    unfold compressAndUpdateImageP1 at h
    repeat' split at h
    · simp_all
    · simp_all
    · simp_all
    · injection h with h2
      rw [← h2]
    · simp_all
      omega

/-- Witness for C7 on the skip path of the earlier revision. -/
theorem savedPercentage_spec_witness :
    compressAndUpdateImageP1 ⟨"g", "t", [⟨"i", "u"⟩]⟩ (.ok 100) (.ok 150) =
        .ok ⟨100, 150, 100, 0⟩ ∧
    (⟨100, 150, 100, (0 : ℚ)⟩ : P1Stats).savedPercentage = 0 :=
  ⟨rfl,
    savedPercentage_spec.2.2 ⟨"g", "t", [⟨"i", "u"⟩]⟩ 100 150 ⟨100, 150, 100, 0⟩
      (by norm_num) rfl⟩

/-- C9, code bug: the single-flight guard is the
`disabled={isCompressing}` button — `compressAllImages` sets the flag at
its start and clears it only in its own `finally`, so a click is
rejected exactly while the flag is true (first conjunct).  But the
`finally` of the nested `compressAndUpdateImage` clears the flag as soon
as one job settles its upload stage, while the run is still in flight
(second conjunct: the progress shows 1 of 7 completed).  A click on that
mid-run state is no longer rejected: it starts a new run and resets the
shared progress aggregate to a fresh one (third conjunct), which differs
from the in-flight progress (fourth conjunct) — the in-progress run is
affected, contradicting the claim the code evidently intended. -/
theorem run_single_flight_defeated :
    clickCompressAll
        ⟨true, false, "", some ⟨7, 1, 0, 1, [failedEntry "g1" "boom"]⟩⟩ 7 =
      ⟨true, false, "", some ⟨7, 1, 0, 1, [failedEntry "g1" "boom"]⟩⟩ ∧
    (compressAndUpdateImageFinally
      ⟨true, false, "", some ⟨7, 1, 0, 1, [failedEntry "g1" "boom"]⟩⟩).isCompressing
      = false ∧
    clickCompressAll
        (compressAndUpdateImageFinally
          ⟨true, false, "", some ⟨7, 1, 0, 1, [failedEntry "g1" "boom"]⟩⟩) 7 =
      ⟨true, false, "", some (initProgress 7)⟩ ∧
    initProgress 7 ≠ (⟨7, 1, 0, 1, [failedEntry "g1" "boom"]⟩ : Progress) := by
  refine ⟨rfl, rfl, rfl, by decide⟩

/-! ## Coordinator-level lemmas -/

theorem foldl_applyEntry_results :
    ∀ (es : List ResultEntry) (p : Progress),
      (es.foldl applyEntry p).results = p.results ++ es := by
  intro es
  induction es with
  | nil => intro p; simp
  | cons e t ih =>
    intro p
    simp [List.foldl_cons, ih, applyEntry]

theorem foldl_applyEntry_total :
    ∀ (es : List ResultEntry) (p : Progress),
      (es.foldl applyEntry p).total = p.total := by
  intro es
  induction es with
  | nil => intro p; rfl
  | cons e t ih => intro p; simp [List.foldl_cons, ih, applyEntry]

theorem runSlices_total (cenv : CoordEnv) :
    ∀ (chunks : List (List Product)) (k : Nat) (p : Progress),
      (runSlices cenv chunks k p).progress.total = p.total := by
  intro chunks
  induction chunks with
  | nil => intro k p; rfl
  | cons c rest ih =>
    intro k p
    unfold runSlices
    split
    · rfl
    · split
      · simp [foldl_applyEntry_total]
      · split
        · simp [foldl_applyEntry_total]
        · simp [ih, foldl_applyEntry_total]

/-- C8, corrected: a product without a primary image is removed by the
pre-filter before the run starts, so it is invisible to the whole run
(the run on the raw product list equals the run on the filtered list):
it receives no recorded outcome at all (not a `skipped` entry), it is
not counted in `total`, and no network call is made for it. -/
theorem no_image_product_excluded (l : List Product) (cenv : CoordEnv)
    (pr : Product) (_hmem : pr ∈ l) (hni : pr.images = []) :
    runBulk l cenv = runBulk (l.filter hasImg) cenv ∧
    pr ∉ l.filter hasImg ∧
    (runBulk l cenv).final.total = (l.filter hasImg).length := by
  refine ⟨?_, ?_, ?_⟩
  · simp [runBulk, List.filter_filter]
  · intro hc
    have := (List.mem_filter.mp hc).2
    rw [hasImg, hni] at this
    simp at this
  · simp [runBulk, runSlices_total, initProgress]

/-- C8, counterexample to the claim as stated: a one-product run where
the product has no image records no outcome at all (in particular no
`skipped` entry with a no-image message), counts the product out of
`total`, and makes no network call. -/
theorem no_image_product_counterexample :
    (runBulk [⟨"g0", "n", []⟩]
        ⟨fun _ => ⟨false, .ok 1, false, .ok 1, false,
          ⟨.ok 1, .ok 1, "", false, ⟨[], [], none⟩⟩⟩, fun _ es => es,
          fun _ => false, fun _ => false, fun _ => false⟩).final.results = [] ∧
    (runBulk [⟨"g0", "n", []⟩]
        ⟨fun _ => ⟨false, .ok 1, false, .ok 1, false,
          ⟨.ok 1, .ok 1, "", false, ⟨[], [], none⟩⟩⟩, fun _ es => es,
          fun _ => false, fun _ => false, fun _ => false⟩).final.total = 0 ∧
    (runBulk [⟨"g0", "n", []⟩]
        ⟨fun _ => ⟨false, .ok 1, false, .ok 1, false,
          ⟨.ok 1, .ok 1, "", false, ⟨[], [], none⟩⟩⟩, fun _ es => es,
          fun _ => false, fun _ => false, fun _ => false⟩).calls = [] := by
  refine ⟨rfl, rfl, rfl⟩

/-- Witness for the amended C8 at a concrete two-product list. -/
theorem no_image_product_excluded_witness :
    (⟨"g0", "n", []⟩ : Product) ∉
      ([⟨"g0", "n", []⟩, ⟨"g1", "t", [⟨"i1", "u1"⟩]⟩] : List Product).filter hasImg ∧
    (runBulk [⟨"g0", "n", []⟩, ⟨"g1", "t", [⟨"i1", "u1"⟩]⟩]
        ⟨fun _ => ⟨false, .ok 1, false, .ok 1, false,
          ⟨.ok 1, .ok 1, "", false, ⟨[], [], none⟩⟩⟩, fun _ es => es,
          fun _ => false, fun _ => false, fun _ => false⟩).final.total =
      (([⟨"g0", "n", []⟩, ⟨"g1", "t", [⟨"i1", "u1"⟩]⟩] : List Product).filter hasImg).length := by
  have h := no_image_product_excluded
    [⟨"g0", "n", []⟩, ⟨"g1", "t", [⟨"i1", "u1"⟩]⟩]
    ⟨fun _ => ⟨false, .ok 1, false, .ok 1, false,
      ⟨.ok 1, .ok 1, "", false, ⟨[], [], none⟩⟩⟩, fun _ es => es,
      fun _ => false, fun _ => false, fun _ => false⟩
    ⟨"g0", "n", []⟩ (by simp) rfl
  exact ⟨h.2.1, h.2.2⟩

/-- An uncancelled run processes every slice: the trace is the full
per-slice start/settle/cooldown sequence and the final progress is the
fold of all slice entries. -/
theorem runSlices_noCancel (cenv : CoordEnv) (hnc : NoCancelEnv cenv) :
    ∀ (chunks : List (List Product)) (k : Nat) (p : Progress),
      (∀ c ∈ chunks, ∀ pr ∈ c, (runJob pr (cenv.jobEnv pr)).ret ≠ JobRet.cancelledMark) →
      (runSlices cenv chunks k p).trace = fullTrace chunks k ∧
      (runSlices cenv chunks k p).progress =
        (allEntries cenv chunks k).foldl applyEntry p := by
  intro chunks
  induction chunks with
  | nil => intro k p _; exact ⟨rfl, rfl⟩
  | cons c rest ih =>
    intro k p h
    have h1 := (hnc k).1
    have h2 := (hnc k).2.1
    have h3 := (hnc k).2.2
    have hcon : (sliceRets cenv c).any (fun r => decide (r = JobRet.cancelledMark)) = false := by
      rw [List.any_eq_false]
      intro r hr
      simp only [sliceRets, List.mem_map] at hr
      obtain ⟨pr, hpr, rfl⟩ := hr
      simpa using h c (List.mem_cons_self c rest) pr hpr
    have hrest := ih (k + 1) ((sliceEntries cenv k c).foldl applyEntry p)
      (fun c2 hc2 => h c2 (List.mem_cons_of_mem c hc2))
    unfold runSlices
    rw [if_neg (by simp [h1]), if_neg (by simp [h2]), if_neg (by simp [hcon])]
    simp only [h3, fullTrace, allEntries, List.foldl_append]
    refine ⟨?_, ?_⟩ <;> simp [hrest.1, hrest.2]

theorem chunksOf3_flatten : ∀ (l : List α), (chunksOf3 l).flatten = l := by
  intro l
  induction l using chunksOf3.induct with
  | case1 => rfl
  | case2 a => rfl
  | case3 a b => rfl
  | case4 a b c rest ih => simp [chunksOf3, ih]

/-- C3: a bulk run over seven products (each with an image, so the
pre-filter keeps all of them), with no cancellation, partitions them into
consecutive slices of sizes 3, 3, 1; each slice is dispatched as a group
and settles before the next slice starts, with the fixed cooldown
between consecutive slices, as the run trace shows. -/
theorem bulk_slicing (l : List Product) (cenv : CoordEnv) (h7 : l.length = 7)
    (himg : ∀ pr ∈ l, hasImg pr = true) (hnc : NoCancelEnv cenv)
    (hnj : ∀ pr ∈ l, (runJob pr (cenv.jobEnv pr)).ret ≠ JobRet.cancelledMark) :
    (chunksOf3 (l.filter hasImg)).map List.length = [3, 3, 1] ∧
    (runBulk l cenv).trace =
      [TraceEv.sliceStart 0 3, TraceEv.settled 0, TraceEv.cooldown 0,
       TraceEv.sliceStart 1 3, TraceEv.settled 1, TraceEv.cooldown 1,
       TraceEv.sliceStart 2 1, TraceEv.settled 2, TraceEv.cooldown 2] := by
  have hfil : l.filter hasImg = l := List.filter_eq_self.mpr himg
  have hch : ∀ c ∈ chunksOf3 l, ∀ pr ∈ c,
      (runJob pr (cenv.jobEnv pr)).ret ≠ JobRet.cancelledMark := by
    intro c hc pr hpr
    exact hnj pr (chunksOf3_flatten l ▸ List.mem_flatten.mpr ⟨c, hc, hpr⟩)
  have hrun := runSlices_noCancel cenv hnc (chunksOf3 l) 0
    (initProgress (l.filter hasImg).length) hch
  obtain ⟨a1, t1, rfl⟩ := List.exists_of_length_succ l (show l.length = 6 + 1 by omega)
  simp only [List.length_cons] at h7
  obtain ⟨a2, t2, rfl⟩ := List.exists_of_length_succ t1 (show t1.length = 5 + 1 by omega)
  simp only [List.length_cons] at h7
  obtain ⟨a3, t3, rfl⟩ := List.exists_of_length_succ t2 (show t2.length = 4 + 1 by omega)
  simp only [List.length_cons] at h7
  obtain ⟨a4, t4, rfl⟩ := List.exists_of_length_succ t3 (show t3.length = 3 + 1 by omega)
  simp only [List.length_cons] at h7
  obtain ⟨a5, t5, rfl⟩ := List.exists_of_length_succ t4 (show t4.length = 2 + 1 by omega)
  simp only [List.length_cons] at h7
  obtain ⟨a6, t6, rfl⟩ := List.exists_of_length_succ t5 (show t5.length = 1 + 1 by omega)
  simp only [List.length_cons] at h7
  obtain ⟨a7, t7, rfl⟩ := List.exists_of_length_succ t6 (show t6.length = 0 + 1 by omega)
  simp only [List.length_cons] at h7
  obtain rfl : t7 = [] := List.length_eq_zero.mp (by omega)
  constructor
  · rw [hfil]
    rfl
  · show (runSlices cenv (chunksOf3 ((_ : List Product).filter hasImg)) 0 _).trace = _
    rw [hfil] at hrun ⊢
    rw [hrun.1]
    rfl

/-- Witness for C3: a concrete seven-product run with skip-path jobs. -/
theorem bulk_slicing_witness :
    (runBulk
        [⟨"g1", "t", [⟨"i1", "u1"⟩]⟩, ⟨"g2", "t", [⟨"i2", "u2"⟩]⟩,
         ⟨"g3", "t", [⟨"i3", "u3"⟩]⟩, ⟨"g4", "t", [⟨"i4", "u4"⟩]⟩,
         ⟨"g5", "t", [⟨"i5", "u5"⟩]⟩, ⟨"g6", "t", [⟨"i6", "u6"⟩]⟩,
         ⟨"g7", "t", [⟨"i7", "u7"⟩]⟩]
        ⟨fun _ => ⟨false, .ok 100, false, .ok 150, false,
          ⟨.ok 1, .ok 1, "", false, ⟨[], [], none⟩⟩⟩, fun _ es => es,
          fun _ => false, fun _ => false, fun _ => false⟩).trace =
      [TraceEv.sliceStart 0 3, TraceEv.settled 0, TraceEv.cooldown 0,
       TraceEv.sliceStart 1 3, TraceEv.settled 1, TraceEv.cooldown 1,
       TraceEv.sliceStart 2 1, TraceEv.settled 2, TraceEv.cooldown 2] :=
  (bulk_slicing
    [⟨"g1", "t", [⟨"i1", "u1"⟩]⟩, ⟨"g2", "t", [⟨"i2", "u2"⟩]⟩,
     ⟨"g3", "t", [⟨"i3", "u3"⟩]⟩, ⟨"g4", "t", [⟨"i4", "u4"⟩]⟩,
     ⟨"g5", "t", [⟨"i5", "u5"⟩]⟩, ⟨"g6", "t", [⟨"i6", "u6"⟩]⟩,
     ⟨"g7", "t", [⟨"i7", "u7"⟩]⟩]
    ⟨fun _ => ⟨false, .ok 100, false, .ok 150, false,
      ⟨.ok 1, .ok 1, "", false, ⟨[], [], none⟩⟩⟩, fun _ es => es,
      fun _ => false, fun _ => false, fun _ => false⟩
    rfl (by decide) (fun k => ⟨rfl, rfl, rfl⟩) (by decide)).2

theorem mem_allEntries (cenv : CoordEnv) (hperm : ∀ k es, (cenv.reorder k es).Perm es) :
    ∀ (chunks : List (List Product)) (k : Nat) (pr : Product) (e : ResultEntry),
      pr ∈ chunks.flatten → (runJob pr (cenv.jobEnv pr)).entry = some e →
      e ∈ allEntries cenv chunks k := by
  intro chunks
  induction chunks with
  | nil => intro k pr e hm _; simp at hm
  | cons c rest ih =>
    intro k pr e hm he
    rw [List.flatten_cons, List.mem_append] at hm
    simp only [allEntries, List.mem_append]
    rcases hm with hm | hm
    · refine Or.inl ?_
      have hmem : e ∈ c.filterMap (fun pr => (runJob pr (cenv.jobEnv pr)).entry) :=
        List.mem_filterMap.mpr ⟨pr, hm, he⟩
      exact ((hperm k _).mem_iff).mpr hmem
    · exact Or.inr (ih (k + 1) pr e hm he)

/-- C5: with no cancellation in play, a job that fails (any of its
stages) has its `failed` entry, message included, recorded in the final
results; every sibling job still records its own entry; and the
coordinator still processes every slice (the trace is the full per-slice
sequence). -/
theorem job_failure_isolated (l : List Product) (cenv : CoordEnv)
    (hperm : ∀ k es, (cenv.reorder k es).Perm es) (hnc : NoCancelEnv cenv)
    (hnj : ∀ pr ∈ l, (runJob pr (cenv.jobEnv pr)).ret ≠ JobRet.cancelledMark)
    (j : Product) (hj : j ∈ l) (hjimg : hasImg j = true) (e : ResultEntry)
    (hje : (runJob j (cenv.jobEnv j)).entry = some e)
    (_hfail : e.status = Status.failed) :
    e ∈ (runBulk l cenv).final.results ∧
    (∀ pr ∈ l, hasImg pr = true → ∀ e2, (runJob pr (cenv.jobEnv pr)).entry = some e2 →
      e2 ∈ (runBulk l cenv).final.results) ∧
    (runBulk l cenv).trace = fullTrace (chunksOf3 (l.filter hasImg)) 0 := by
  have hch : ∀ c ∈ chunksOf3 (l.filter hasImg), ∀ pr ∈ c,
      (runJob pr (cenv.jobEnv pr)).ret ≠ JobRet.cancelledMark := by
    intro c hc pr hpr
    exact hnj pr (List.mem_of_mem_filter
      (chunksOf3_flatten (l.filter hasImg) ▸ List.mem_flatten.mpr ⟨c, hc, hpr⟩))
  have hrun := runSlices_noCancel cenv hnc (chunksOf3 (l.filter hasImg)) 0
    (initProgress (l.filter hasImg).length) hch
  have hres : (runBulk l cenv).final.results =
      allEntries cenv (chunksOf3 (l.filter hasImg)) 0 := by
    simp only [runBulk]
    rw [hrun.2, foldl_applyEntry_results]
    simp [initProgress]
  refine ⟨?_, ?_, ?_⟩
  · rw [hres]
    refine mem_allEntries cenv hperm _ 0 j e ?_ hje
    rw [chunksOf3_flatten]
    exact List.mem_filter.mpr ⟨hj, hjimg⟩
  · intro pr hpr hpi e2 he2
    rw [hres]
    refine mem_allEntries cenv hperm _ 0 pr e2 ?_ he2
    rw [chunksOf3_flatten]
    exact List.mem_filter.mpr ⟨hpr, hpi⟩
  · exact hrun.1

/-- Witness for C5: a fetch failure of the first product is recorded
with its message while the sibling product still records its own entry. -/
theorem job_failure_isolated_witness :
    failedEntry "g0" "Failed to fetch image: boom" ∈
      (runBulk [⟨"g0", "t", [⟨"i0", "u0"⟩]⟩, ⟨"g1", "t", [⟨"i1", "u1"⟩]⟩]
        ⟨fun pr => if pr.id = "g0" then
            ⟨false, .httpErr "boom", false, .ok 150, false,
              ⟨.ok 1, .ok 1, "", false, ⟨[], [], none⟩⟩⟩
          else
            ⟨false, .ok 100, false, .ok 150, false,
              ⟨.ok 1, .ok 1, "", false, ⟨[], [], none⟩⟩⟩, fun _ es => es,
          fun _ => false, fun _ => false, fun _ => false⟩).final.results ∧
    skippedEntry "g1" "No size reduction achieved" ∈
      (runBulk [⟨"g0", "t", [⟨"i0", "u0"⟩]⟩, ⟨"g1", "t", [⟨"i1", "u1"⟩]⟩]
        ⟨fun pr => if pr.id = "g0" then
            ⟨false, .httpErr "boom", false, .ok 150, false,
              ⟨.ok 1, .ok 1, "", false, ⟨[], [], none⟩⟩⟩
          else
            ⟨false, .ok 100, false, .ok 150, false,
              ⟨.ok 1, .ok 1, "", false, ⟨[], [], none⟩⟩⟩, fun _ es => es,
          fun _ => false, fun _ => false, fun _ => false⟩).final.results := by
  have h := job_failure_isolated
    [⟨"g0", "t", [⟨"i0", "u0"⟩]⟩, ⟨"g1", "t", [⟨"i1", "u1"⟩]⟩]
    ⟨fun pr => if pr.id = "g0" then
        ⟨false, .httpErr "boom", false, .ok 150, false,
          ⟨.ok 1, .ok 1, "", false, ⟨[], [], none⟩⟩⟩
      else
        ⟨false, .ok 100, false, .ok 150, false,
          ⟨.ok 1, .ok 1, "", false, ⟨[], [], none⟩⟩⟩, fun _ es => es,
      fun _ => false, fun _ => false, fun _ => false⟩
    (fun _ es => List.Perm.refl es) (fun k => ⟨rfl, rfl, rfl⟩) (by decide)
    ⟨"g0", "t", [⟨"i0", "u0"⟩]⟩ (by decide) (by decide)
    (failedEntry "g0" "Failed to fetch image: boom") (by decide) (by decide)
  refine ⟨h.1, ?_⟩
  refine h.2.1 ⟨"g1", "t", [⟨"i1", "u1"⟩]⟩ (by decide) (by decide)
    (skippedEntry "g1" "No size reduction achieved") (by decide)

theorem runSlices_start_mem (cenv : CoordEnv) :
    ∀ (chunks : List (List Product)) (k : Nat) (p : Progress) (j n : Nat),
      TraceEv.sliceStart j n ∈ (runSlices cenv chunks k p).trace →
      k ≤ j ∧ cenv.loopCancelled j = false ∧
      ∀ i, k ≤ i → i < j →
        cenv.loopCancelled i = false ∧ cenv.preAwaitCancelled i = false ∧
        JobRet.cancelledMark ∉ sliceRets cenv (chunks.getD (i - k) []) := by
  intro chunks
  induction chunks with
  | nil => intro k p j n hm; simp [runSlices] at hm
  | cons c rest ih =>
    intro k p j n hm
    unfold runSlices at hm
    cases h1 : cenv.loopCancelled k with
    | true => simp [h1] at hm
    | false =>
      rw [if_neg (by simp [h1])] at hm
      cases h2 : cenv.preAwaitCancelled k with
      | true =>
        rw [if_pos (by simp [h2])] at hm
        simp only [List.mem_singleton, TraceEv.sliceStart.injEq] at hm
        obtain ⟨rfl, rfl⟩ := hm
        exact ⟨le_refl _, h1, fun i hki hik => absurd hik (by omega)⟩
      | false =>
        rw [if_neg (by simp [h2])] at hm
        cases h3 : (sliceRets cenv c).any (fun r => decide (r = JobRet.cancelledMark)) with
        | true =>
          rw [if_pos (by simp [h3])] at hm
          simp only [List.mem_cons, List.mem_singleton, List.not_mem_nil] at hm
          rcases hm with hm | hm
          · obtain ⟨rfl, rfl⟩ := TraceEv.sliceStart.inj hm
            exact ⟨le_refl _, h1, fun i hki hik => absurd hik (by omega)⟩
          · simp at hm
        | false =>
          rw [if_neg (by simp [h3])] at hm
          have hnotc : JobRet.cancelledMark ∉ sliceRets cenv c := by
            intro hmem
            rw [List.any_eq_false] at h3
            simpa using h3 _ hmem
          simp only [List.cons_append, List.nil_append, List.mem_cons] at hm
          rcases hm with hm | hm | hm
          · obtain ⟨rfl, rfl⟩ := TraceEv.sliceStart.inj hm
            exact ⟨le_refl _, h1, fun i hki hik => absurd hik (by omega)⟩
          · exact absurd hm (by simp)
          · rw [List.mem_append] at hm
            rcases hm with hm | hm
            · cases h4 : cenv.postCancelled k <;> simp [h4] at hm
            · have hrec := ih (k + 1) _ j n hm
              refine ⟨by omega, hrec.2.1, ?_⟩
              intro i hki hik
              rcases Nat.eq_or_lt_of_le hki with rfl | hki2
              · refine ⟨h1, h2, ?_⟩
                simpa using hnotc
              · have h5 := hrec.2.2 i (by omega) hik
                have h6 : i - k = (i - (k + 1)) + 1 := by omega
                rw [h6, List.getD_cons_succ]
                exact h5

/-- C4, amended: once cancellation is observed — at the loop condition,
at the pre-await check, or through a job of the settled slice returning
the cancelled marker — no further slice is started.  However, a job that
observes cancellation returns the `{ cancelled: true }` marker and
records NO outcome in the progress results (there is no `cancelled`
status entry), while a job that never observes cancellation records its
true terminal entry. -/
theorem cancellation_semantics :
    (∀ (l : List Product) (cenv : CoordEnv) (j n : Nat),
      TraceEv.sliceStart j n ∈ (runBulk l cenv).trace →
      cenv.loopCancelled j = false ∧
      ∀ i, i < j →
        cenv.loopCancelled i = false ∧ cenv.preAwaitCancelled i = false ∧
        JobRet.cancelledMark ∉ sliceRets cenv ((chunksOf3 (l.filter hasImg)).getD i [])) ∧
    (∀ pr env, (runJob pr env).ret = JobRet.cancelledMark ↔ (runJob pr env).entry = none) ∧
    (∀ pr env, (runJob pr env).ret ≠ JobRet.cancelledMark →
      ∃ e, (runJob pr env).entry = some e) := by
  refine ⟨?_, ?_, ?_⟩
  · intro l cenv j n hm
    simp only [runBulk] at hm
    have h := runSlices_start_mem cenv (chunksOf3 (l.filter hasImg)) 0 _ j n hm
    exact ⟨h.2.1, fun i hij => by simpa using h.2.2 i (Nat.zero_le i) hij⟩
  · intro pr env
    exact (runJob_entry_none_iff pr env).symm
  · intro pr env h
    cases he : (runJob pr env).entry with
    | none => exact absurd ((runJob_entry_none_iff pr env).mp he) h
    | some e => exact ⟨e, rfl⟩

/-- C4, counterexample to the claim as stated: in this one-product run
the job is dispatched (the slice starts) and is cancelled by an aborted
fetch, yet the progress results stay empty — the dispatched job records
no outcome at all, neither its terminal status nor a `cancelled` one. -/
theorem cancelled_job_unrecorded_counterexample :
    TraceEv.sliceStart 0 1 ∈
      (runBulk [⟨"g1", "t", [⟨"i1", "u1"⟩]⟩]
        ⟨fun _ => ⟨false, .abort, false, .ok 1, false,
          ⟨.ok 1, .ok 1, "", false, ⟨[], [], none⟩⟩⟩, fun _ es => es,
          fun _ => false, fun _ => false, fun _ => false⟩).trace ∧
    (runBulk [⟨"g1", "t", [⟨"i1", "u1"⟩]⟩]
        ⟨fun _ => ⟨false, .abort, false, .ok 1, false,
          ⟨.ok 1, .ok 1, "", false, ⟨[], [], none⟩⟩⟩, fun _ es => es,
          fun _ => false, fun _ => false, fun _ => false⟩).final.results = [] ∧
    (runBulk [⟨"g1", "t", [⟨"i1", "u1"⟩]⟩]
        ⟨fun _ => ⟨false, .abort, false, .ok 1, false,
          ⟨.ok 1, .ok 1, "", false, ⟨[], [], none⟩⟩⟩, fun _ es => es,
          fun _ => false, fun _ => false, fun _ => false⟩).final.completed = 0 := by
  refine ⟨by decide, rfl, rfl⟩

/-- Witness for the amended C4: a job whose fetch is aborted returns the
cancelled marker and records no entry. -/
theorem cancellation_semantics_witness :
    (runJob ⟨"g1", "t", [⟨"i1", "u1"⟩]⟩
      ⟨false, .abort, false, .ok 1, false,
        ⟨.ok 1, .ok 1, "", false, ⟨[], [], none⟩⟩⟩).entry = none :=
  (cancellation_semantics.2.1 ⟨"g1", "t", [⟨"i1", "u1"⟩]⟩
    ⟨false, .abort, false, .ok 1, false,
      ⟨.ok 1, .ok 1, "", false, ⟨[], [], none⟩⟩⟩).mp (by decide)

/-! ## Counter and uniqueness invariants of the progress aggregate -/

theorem applyEntry_cnt (p : Progress) (e : ResultEntry) (h : CntInv p) :
    CntInv (applyEntry p e) := by
  obtain ⟨h1, h2, h3⟩ := h
  refine ⟨by simp [applyEntry, h1], ?_, ?_⟩
  · simp only [applyEntry, List.countP_append, h2]
    rcases he : e.status <;> simp [List.countP_cons, he]
  · simp only [applyEntry, List.countP_append, h3]
    rcases he : e.status <;> simp [List.countP_cons, he]

theorem resIds_applyEntry (p : Progress) (e : ResultEntry) :
    resIds (applyEntry p e) = resIds p + {e.productId} := by
  simp only [resIds, applyEntry, List.map_append, List.map_cons, List.map_nil]
  rw [← Multiset.coe_add]
  rfl

theorem scanl_applyEntry_total :
    ∀ (es : List ResultEntry) (p : Progress),
      ∀ q ∈ es.scanl applyEntry p, q.total = p.total := by
  intro es
  induction es with
  | nil =>
    intro p q hq
    rw [List.scanl_nil, List.mem_singleton] at hq
    subst hq; rfl
  | cons e t ih =>
    intro p q hq
    rw [List.scanl_cons] at hq
    rcases List.mem_cons.mp hq with rfl | hq2
    · rfl
    · rw [ih (applyEntry p e) q hq2]; rfl

theorem runSlices_snapshots_total (cenv : CoordEnv) :
    ∀ (chunks : List (List Product)) (k : Nat) (p : Progress),
      ∀ q ∈ (runSlices cenv chunks k p).snapshots, q.total = p.total := by
  intro chunks
  induction chunks with
  | nil => intro k p q hq; simp [runSlices] at hq
  | cons c rest ih =>
    intro k p q hq
    unfold runSlices at hq
    cases h1 : cenv.loopCancelled k with
    | true => simp [h1] at hq
    | false =>
      rw [if_neg (by simp [h1])] at hq
      by_cases h2 : cenv.preAwaitCancelled k = true
      · rw [if_pos h2] at hq
        exact scanl_applyEntry_total _ p q (List.mem_of_mem_drop hq)
      · rw [if_neg h2] at hq
        by_cases h3 : (sliceRets cenv c).any (fun r => decide (r = JobRet.cancelledMark)) = true
        · rw [if_pos h3] at hq
          exact scanl_applyEntry_total _ p q (List.mem_of_mem_drop hq)
        · rw [if_neg h3] at hq
          rcases List.mem_append.mp hq with hq2 | hq2
          · exact scanl_applyEntry_total _ p q (List.mem_of_mem_drop hq2)
          · rw [ih (k + 1) _ q hq2, foldl_applyEntry_total]

theorem foldl_applyEntry_inv (ids0 : Multiset String) (extra : Multiset String) :
    ∀ (es : List ResultEntry) (p : Progress),
      CntInv p →
      resIds p + ↑(es.map ResultEntry.productId) + extra ≤ ids0 →
      (CntInv (es.foldl applyEntry p) ∧
        resIds (es.foldl applyEntry p) + extra ≤ ids0) ∧
      ∀ q ∈ es.scanl applyEntry p, CntInv q ∧ resIds q ≤ ids0 := by
  intro es
  induction es with
  | nil =>
    intro p hc hb
    have hb1 : resIds p + extra ≤ ids0 := by simpa using hb
    have hb2 : resIds p ≤ ids0 := le_trans (self_le_add_right _ _) hb1
    refine ⟨⟨hc, hb1⟩, ?_⟩
    intro q hq
    rw [List.scanl_nil, List.mem_singleton] at hq
    subst hq
    exact ⟨hc, hb2⟩
  | cons e t ih =>
    intro p hc hb
    have hx : (resIds p + {e.productId}) + (↑(t.map ResultEntry.productId) : Multiset String)
        = resIds p + ↑((e :: t).map ResultEntry.productId) := by
      rw [List.map_cons, ← Multiset.cons_coe, ← Multiset.singleton_add, add_assoc]
    have hb1 : resIds (applyEntry p e) + ↑(t.map ResultEntry.productId) + extra ≤ ids0 := by
      calc resIds (applyEntry p e) + ↑(t.map ResultEntry.productId) + extra
          = (resIds p + {e.productId}) + ↑(t.map ResultEntry.productId) + extra := by
            rw [resIds_applyEntry]
        _ = resIds p + ↑((e :: t).map ResultEntry.productId) + extra := by rw [hx]
        _ ≤ ids0 := hb
    have hp0 : resIds p ≤ ids0 :=
      le_trans (le_trans (self_le_add_right _ _) (self_le_add_right _ _)) hb
    have hrec := ih (applyEntry p e) (applyEntry_cnt p e hc) hb1
    refine ⟨hrec.1, ?_⟩
    intro q hq
    rw [List.scanl_cons] at hq
    rcases List.mem_cons.mp hq with rfl | hq2
    · exact ⟨hc, hp0⟩
    · exact hrec.2 q hq2

theorem sliceEntries_ids_le (cenv : CoordEnv)
    (hperm : ∀ k es, (cenv.reorder k es).Perm es) (k : Nat) (c : List Product) :
    (↑((sliceEntries cenv k c).map ResultEntry.productId) : Multiset String) ≤ prodIds c := by
  have hp : ((sliceEntries cenv k c).map ResultEntry.productId).Perm
      ((c.filterMap fun pr => (runJob pr (cenv.jobEnv pr)).entry).map ResultEntry.productId) :=
    (hperm k _).map _
  rw [Multiset.coe_eq_coe.mpr hp]
  clear hp
  induction c with
  | nil => simp [prodIds]
  | cons pr t ih =>
    rw [List.filterMap_cons]
    cases he : (runJob pr (cenv.jobEnv pr)).entry with
    | none =>
      simp only [prodIds, List.map_cons]
      refine le_trans ih ?_
      rw [← Multiset.cons_coe]
      exact Multiset.le_cons_self _ _
    | some e =>
      have hpid : e.productId = pr.id := runJob_entry_pid pr _ e he
      simp only [prodIds, List.map_cons, hpid]
      rw [← Multiset.cons_coe, ← Multiset.cons_coe]
      exact Multiset.cons_le_cons _ ih

theorem runSlices_snapshots_inv (cenv : CoordEnv)
    (hperm : ∀ k es, (cenv.reorder k es).Perm es) (ids0 : Multiset String) :
    ∀ (chunks : List (List Product)) (k : Nat) (p : Progress),
      CntInv p →
      resIds p + prodIds chunks.flatten ≤ ids0 →
      (CntInv (runSlices cenv chunks k p).progress ∧
        resIds (runSlices cenv chunks k p).progress ≤ ids0) ∧
      ∀ q ∈ (runSlices cenv chunks k p).snapshots, CntInv q ∧ resIds q ≤ ids0 := by
  intro chunks
  induction chunks with
  | nil =>
    intro k p hc hb
    have hb2 : resIds p ≤ ids0 := by simpa [prodIds] using hb
    exact ⟨⟨hc, hb2⟩, fun q hq => by simp [runSlices] at hq⟩
  | cons c rest ih =>
    intro k p hc hb
    have hsplit : prodIds (c :: rest).flatten = prodIds c + prodIds rest.flatten := by
      simp [prodIds, List.flatten_cons]
    have hsl : (↑((sliceEntries cenv k c).map ResultEntry.productId) : Multiset String)
        ≤ prodIds c := sliceEntries_ids_le cenv hperm k c
    have hbnd : resIds p + ↑((sliceEntries cenv k c).map ResultEntry.productId)
        + prodIds rest.flatten ≤ ids0 := by
      calc resIds p + ↑((sliceEntries cenv k c).map ResultEntry.productId)
            + prodIds rest.flatten
          ≤ resIds p + prodIds c + prodIds rest.flatten :=
            add_le_add_right (add_le_add_left hsl _) _
        _ = resIds p + prodIds (c :: rest).flatten := by rw [hsplit, add_assoc]
        _ ≤ ids0 := hb
    have hfold := foldl_applyEntry_inv ids0 (prodIds rest.flatten)
      (sliceEntries cenv k c) p hc hbnd
    have hfold2 : resIds ((sliceEntries cenv k c).foldl applyEntry p) ≤ ids0 :=
      le_trans (self_le_add_right _ _) hfold.1.2
    unfold runSlices
    cases h1 : cenv.loopCancelled k with
    | true =>
      rw [if_pos (by simp [h1])]
      have hb2 : resIds p ≤ ids0 :=
        le_trans (self_le_add_right _ _) hb
      exact ⟨⟨hc, hb2⟩, fun q hq => by simp at hq⟩
    | false =>
      rw [if_neg (by simp [h1])]
      by_cases h2 : cenv.preAwaitCancelled k = true
      · rw [if_pos h2]
        refine ⟨⟨hfold.1.1, hfold2⟩, ?_⟩
        intro q hq
        exact hfold.2 q (List.mem_of_mem_drop hq)
      · rw [if_neg h2]
        by_cases h3 : (sliceRets cenv c).any (fun r => decide (r = JobRet.cancelledMark)) = true
        · rw [if_pos h3]
          refine ⟨⟨hfold.1.1, hfold2⟩, ?_⟩
          intro q hq
          exact hfold.2 q (List.mem_of_mem_drop hq)
        · rw [if_neg h3]
          have hrec := ih (k + 1) ((sliceEntries cenv k c).foldl applyEntry p)
            hfold.1.1 hfold.1.2
          refine ⟨hrec.1, ?_⟩
          intro q hq
          rcases List.mem_append.mp hq with hq2 | hq2
          · exact hfold.2 q (List.mem_of_mem_drop hq2)
          · exact hrec.2 q hq2

theorem length_eq_countP_statuses (rs : List ResultEntry) :
    rs.length = rs.countP (fun e => decide (e.status = Status.success)) +
      rs.countP (fun e => decide (e.status = Status.failed)) +
      rs.countP (fun e => decide (e.status = Status.skipped)) := by
  induction rs with
  | nil => rfl
  | cons e t ih =>
    cases he : e.status <;> simp [List.countP_cons, he, ih] <;> omega

/-- C2: at every observable snapshot of the bulk progress, `completed`
equals `successful` plus `failed` plus the number of skipped entries,
`completed` never exceeds `total`, and no product has two recorded
outcomes (the recorded product ids are distinct), provided the input
product ids are distinct and each slice settles in some order of its own
jobs. -/
theorem progress_invariant (l : List Product) (cenv : CoordEnv)
    (hperm : ∀ k es, (cenv.reorder k es).Perm es)
    (hnd : (l.map Product.id).Nodup) :
    ∀ q ∈ (runBulk l cenv).snapshots,
      q.completed = q.successful + q.failed +
        q.results.countP (fun e => decide (e.status = Status.skipped)) ∧
      q.completed ≤ q.total ∧
      (q.results.map ResultEntry.productId).Nodup := by
  intro q hq
  have hnd0 : ((l.filter hasImg).map Product.id).Nodup :=
    List.Nodup.sublist (List.Sublist.map Product.id (List.filter_sublist l)) hnd
  simp only [runBulk, List.mem_cons] at hq
  have hkey : CntInv q ∧ resIds q ≤ ↑((l.filter hasImg).map Product.id) ∧
      q.total = (l.filter hasImg).length := by
    rcases hq with rfl | hq2
    · exact ⟨⟨rfl, rfl, rfl⟩, by simp [resIds, initProgress], rfl⟩
    · have hb0 : resIds (initProgress (l.filter hasImg).length) +
          prodIds (chunksOf3 (l.filter hasImg)).flatten ≤
          ↑((l.filter hasImg).map Product.id) := by
        simp [resIds, initProgress, prodIds, chunksOf3_flatten]
      have hinv := runSlices_snapshots_inv cenv hperm
        ↑((l.filter hasImg).map Product.id) (chunksOf3 (l.filter hasImg)) 0
        (initProgress (l.filter hasImg).length) ⟨rfl, rfl, rfl⟩ hb0
      exact ⟨(hinv.2 q hq2).1, (hinv.2 q hq2).2,
        runSlices_snapshots_total cenv _ 0 _ q hq2⟩
  obtain ⟨⟨hc1, hc2, hc3⟩, hle, htot⟩ := hkey
  refine ⟨?_, ?_, ?_⟩
  · rw [hc1, hc2, hc3, length_eq_countP_statuses]
  · rw [hc1, htot]
    have hcard := Multiset.card_le_card hle
    simpa [resIds] using hcard
  · have hnd2 : (↑(q.results.map ResultEntry.productId) : Multiset String).Nodup :=
      Multiset.nodup_of_le hle (by simpa using hnd0)
    simpa using hnd2

/-- Witness for C2 at the final snapshot of a concrete one-product run. -/
theorem progress_invariant_witness :
    (⟨1, 1, 0, 0, [skippedEntry "g1" "No size reduction achieved"]⟩ : Progress).completed =
      (⟨1, 1, 0, 0, [skippedEntry "g1" "No size reduction achieved"]⟩ : Progress).successful +
      (⟨1, 1, 0, 0, [skippedEntry "g1" "No size reduction achieved"]⟩ : Progress).failed +
      (⟨1, 1, 0, 0, [skippedEntry "g1" "No size reduction achieved"]⟩ :
        Progress).results.countP (fun e => decide (e.status = Status.skipped)) ∧
    (⟨1, 1, 0, 0, [skippedEntry "g1" "No size reduction achieved"]⟩ : Progress).completed ≤
      (⟨1, 1, 0, 0, [skippedEntry "g1" "No size reduction achieved"]⟩ : Progress).total := by
  have h := progress_invariant [⟨"g1", "t", [⟨"i1", "u1"⟩]⟩]
    ⟨fun _ => ⟨false, .ok 100, false, .ok 150, false,
      ⟨.ok 1, .ok 1, "", false, ⟨[], [], none⟩⟩⟩, fun _ es => es,
      fun _ => false, fun _ => false, fun _ => false⟩
    (fun _ es => List.Perm.refl es) (by decide)
    ⟨1, 1, 0, 0, [skippedEntry "g1" "No size reduction achieved"]⟩ (by decide)
  exact ⟨h.1, h.2.1⟩

end ImgApp
